import Mathlib

/-!
Verification of the MediSnap prescription-extraction service (src/app.py)
against its natural-language specification.

The service is a single-endpoint pipeline: decode an uploaded image, ask a
multimodal model for a JSON transcription, recover the JSON from the reply,
enrich each drug entry with a verified image URL, normalise the record and
wrap it in an HTTP envelope.  The external collaborators (the Gemini model,
the image-search provider, the HTTP fetch of candidate images) are modelled
as oracle inputs; everything the repository's own code does is embedded as
executable Lean definitions below.
-/

/-- JSON values as produced by Python's `json.loads`.  Objects keep insertion
order, with duplicate keys collapsed last-wins into the first occurrence's
position, exactly as a Python `dict` built by the parser behaves.  Numbers are
modelled as integers: the modelled subset of JSON (no floats, no `\uXXXX`
escapes, no leading-zero literals) covers every value handled in this
development. -/
inductive Json where
  | null : Json
  | bool : Bool → Json
  | num : Int → Json
  | str : String → Json
  | arr : List Json → Json
  | obj : List (String × Json) → Json

/-- Python `dict` lookup (`d[k]` / `d.get(k)`) on an insertion-ordered
association list. -/
def lookupKey (k : String) : List (String × Json) → Option Json
  | [] => none
  | (k₂, v) :: rest => if k₂ = k then some v else lookupKey k rest

/-- Python `dict` assignment `d[k] = v`: replaces the value in place if the
key exists, otherwise appends the new binding at the end. -/
def setKey : List (String × Json) → String → Json → List (String × Json)
  | [], k, v => [(k, v)]
  | (k₂, v₂) :: rest, k, v =>
    if k₂ = k then (k₂, v) :: rest else (k₂, v₂) :: setKey rest k v

/-- Folds parsed object members into a Python `dict`: first occurrence keeps
its position, later duplicates overwrite the value (last wins). -/
def dedupKeys (ms : List (String × Json)) : List (String × Json) :=
  ms.foldl (fun acc kv => setKey acc kv.1 kv.2) []

/-- Reading a field out of a drug entry in the final response: `none` when the
entry is not an object or lacks the key. -/
def jsonGet (k : String) : Json → Option Json
  | .obj kvs => lookupKey k kvs
  | _ => none

/-- JSON insignificant whitespace (also the characters Python's `str.strip`
removes from the replies handled here): space, tab, newline, carriage
return. -/
def ws (c : Char) : Bool :=
  c = ' ' || c = '\t' || c = '\n' || c = '\r'

/-- Python `str.strip()` on a character list: remove leading and trailing
whitespace. -/
def listTrim (cs : List Char) : List Char :=
  ((cs.dropWhile ws).reverse.dropWhile ws).reverse

/-- A single JSON string-escape character (`json.loads` escapes; `\uXXXX` is
outside the modelled subset). -/
def escChar : Char → Option Char
  | '"' => some '"'
  | '\\' => some '\\'
  | '/' => some '/'
  | 'b' => some (Char.ofNat 8)
  | 'f' => some (Char.ofNat 12)
  | 'n' => some '\n'
  | 'r' => some '\r'
  | 't' => some '\t'
  | _ => none

/-- Body of a JSON string literal, after the opening quote: returns the
decoded characters and the remainder after the closing quote.  Control
characters are rejected, as in strict `json.loads`. -/
def parseStrAux : List Char → Option (List Char × List Char)
  | [] => none
  | '"' :: rest => some ([], rest)
  | '\\' :: e :: rest => do
    let c ← escChar e
    let (s, r) ← parseStrAux rest
    some (c :: s, r)
  | c :: rest =>
    if c.toNat < 32 then none
    else do
      let (s, r) ← parseStrAux rest
      some (c :: s, r)

/-- Digit run accumulator for JSON integer literals. -/
def digitsAux : Nat → List Char → Nat × List Char
  | acc, c :: cs =>
    if c.isDigit then digitsAux (acc * 10 + (c.toNat - 48)) cs else (acc, c :: cs)
  | acc, [] => (acc, [])

/-- JSON integer literal (optionally negative). -/
def parseNum : List Char → Option (Json × List Char)
  | '-' :: c :: cs =>
    if c.isDigit then
      let (n, r) := digitsAux 0 (c :: cs)
      some (.num (-(n : Int)), r)
    else none
  | c :: cs =>
    if c.isDigit then
      let (n, r) := digitsAux 0 (c :: cs)
      some (.num (n : Int), r)
    else none
  | [] => none

mutual

/-- One JSON value, fuel-bounded recursive descent mirroring `json.loads`.
Returns the value and the unconsumed remainder. -/
def parseVal : Nat → List Char → Option (Json × List Char)
  | 0, _ => none
  | fuel + 1, cs =>
    match cs.dropWhile ws with
    | '"' :: rest => do
      let (s, r) ← parseStrAux rest
      some (.str (String.mk s), r)
    | 't' :: 'r' :: 'u' :: 'e' :: rest => some (.bool true, rest)
    | 'f' :: 'a' :: 'l' :: 's' :: 'e' :: rest => some (.bool false, rest)
    | 'n' :: 'u' :: 'l' :: 'l' :: rest => some (.null, rest)
    | '[' :: rest =>
      (match rest.dropWhile ws with
       | ']' :: r => some (.arr [], r)
       | _ => do
         let (xs, r) ← parseElems fuel rest
         some (.arr xs, r))
    | '{' :: rest =>
      (match rest.dropWhile ws with
       | '}' :: r => some (.obj [], r)
       | _ => do
         let (ms, r) ← parseMembers fuel rest
         some (.obj (dedupKeys ms), r))
    | c :: rest =>
      if c = '-' ∨ c.isDigit then parseNum (c :: rest) else none
    | [] => none

/-- Comma-separated JSON array elements up to the closing bracket. -/
def parseElems : Nat → List Char → Option (List Json × List Char)
  | 0, _ => none
  | fuel + 1, cs => do
    let (v, r) ← parseVal fuel cs
    match r.dropWhile ws with
    | ',' :: r₂ => do
      let (vs, r₃) ← parseElems fuel r₂
      some (v :: vs, r₃)
    | ']' :: r₂ => some ([v], r₂)
    | _ => none

/-- Comma-separated JSON object members up to the closing brace. -/
def parseMembers : Nat → List Char → Option (List (String × Json) × List Char)
  | 0, _ => none
  | fuel + 1, cs =>
    match cs.dropWhile ws with
    | '"' :: rest => do
      let (k, r) ← parseStrAux rest
      match r.dropWhile ws with
      | ':' :: r₂ => do
        let (v, r₃) ← parseVal fuel r₂
        match r₃.dropWhile ws with
        | ',' :: r₄ => do
          let (ms, r₅) ← parseMembers fuel r₄
          some ((String.mk k, v) :: ms, r₅)
        | '}' :: r₄ => some ([(String.mk k, v)], r₄)
        | _ => none
      | _ => none
    | _ => none

end

/-- `json.loads` on a character list: one JSON document, whole input consumed
(up to surrounding whitespace), `none` on any parse error. -/
def parseJsonList (cs : List Char) : Option Json :=
  match parseVal (2 * cs.length + 2) cs with
  | some (j, rest) => if rest.dropWhile ws = [] then some j else none
  | none => none

/-- Index of the first occurrence of a character, if any. -/
def firstIdx (ch : Char) : List Char → Option Nat
  | [] => none
  | c :: cs => if c = ch then some 0 else (firstIdx ch cs).map (· + 1)

/-- Index of the last occurrence of a character, if any. -/
def lastIdx (ch : Char) : List Char → Option Nat
  | [] => none
  | c :: cs =>
    match lastIdx ch cs with
    | some j => some (j + 1)
    | none => if c = ch then some 0 else none

/-- The substring matched by `re.search(r'\x7b.*\x7d', text, re.DOTALL)` in
`extract_data_from_image` (src/app.py line 70): with `.*` greedy and matching
newlines, the match — when one exists — runs from the first opening brace to
the last closing brace of the text. -/
def braceSpan (cs : List Char) : Option (List Char) :=
  match firstIdx '{' cs with
  | none => none
  | some i =>
    match lastIdx '}' cs with
    | none => none
    | some j => if i < j then some ((cs.drop i).take (j - i + 1)) else none

/-- The hard parse-failure message raised by `extract_data_from_image`
(src/app.py line 76). -/
def parseFailMsg : String := "Failed to parse Gemini response as JSON"

/-- The parsing/recovery logic of `extract_data_from_image` (src/app.py lines
63-76), modelled on the Gemini reply text (the model call itself is an
external collaborator).  The reply is stripped, then: (1) try `json.loads` on
the whole text; (2) on failure, take the greedy first-brace-to-last-brace
span and try `json.loads` on it; (3) otherwise raise
`ValueError(parseFailMsg)`, modelled as `Except.error`.  The function is
pure, hence deterministic on identical replies. -/
def extract_data_from_image (reply : String) : Except String Json :=
  match parseJsonList (listTrim reply.toList) with
  | some j => Except.ok j
  | none =>
    match braceSpan (listTrim reply.toList) with
    | some sub =>
      match parseJsonList sub with
      | some j => Except.ok j
      | none => Except.error parseFailMsg
    | none => Except.error parseFailMsg

/-- ASCII lowercasing of one character, as Python `str.lower` acts on the
ASCII range (the replies handled here are ASCII): letters `A`-`Z` (codes
65-90) are shifted by 32, everything else is unchanged. -/
def lowerChar (c : Char) : Char :=
  if 65 ≤ c.toNat ∧ c.toNat ≤ 90 then Char.ofNat (c.toNat + 32) else c

/-- Does `hay` start with `needle`? -/
def startsWith : List Char → List Char → Bool
  | [], _ => true
  | _ :: _, [] => false
  | a :: as, b :: bs => a = b && startsWith as bs

/-- Python's substring test `needle in hay` on character lists. -/
def containsSeq (needle : List Char) : List Char → Bool
  | [] => needle.isEmpty
  | b :: bs => startsWith needle (b :: bs) || containsSeq needle bs

/-- `is_valid_capsule_image` (src/app.py lines 79-90), modelled on its two
external interactions: `fetched` is `some ()` when `requests.get` plus
`Image.open` succeeded on the candidate URL (`none` models any fetch or
decode exception), and `answer` is the model's textual verdict (`none` models
an exception in the model call).  Every exception is caught and yields
`false`; otherwise the verdict is stripped, lowercased, and tested for the
substring `"yes"`. -/
def is_valid_capsule_image (fetched : Option Unit) (answer : Option String) : Bool :=
  match fetched with
  | none => false
  | some _ =>
    match answer with
    | none => false
    | some a => containsSeq "yes".toList ((listTrim a.toList).map lowerChar)

/-- The per-request external world of the endpoint.  `decodeOk` is whether
`Image.open` succeeds on the uploaded bytes; `geminiReply` is the extraction
model call's reply text (`none` models a raised exception); `search` maps a
drug-name value to the first image-search result link (`none` models a
provider error, malformed response shape, or empty item list — all of which
raise inside the `try` and are caught); `fetch` and `verifyAnswer` are the
Verifier's two external interactions per candidate URL; `stackText` is the
traceback text produced by the runtime on failure. -/
structure RequestOracle where
  decodeOk : Bool
  geminiReply : Option String
  search : Json → Option String
  fetch : String → Option Unit
  verifyAnswer : String → Option String
  stackText : String

/-- `get_drug_image_url` (src/app.py lines 93-113): one search query built
from the drug name; any failure up to and including the first-link extraction
resolves to `None`; an accepted candidate is returned, a rejected one becomes
`None`.  The surrounding `try/except` means the function never raises, which
the total `Option String` return type models. -/
def get_drug_image_url (o : RequestOracle) (drug_name : Json) : Option String :=
  match o.search drug_name with
  | none => none
  | some image_url =>
    if is_valid_capsule_image (o.fetch image_url) (o.verifyAnswer image_url) then
      some image_url
    else none

/-- The value stored by `drug["image_url"] = get_drug_image_url(name) or
"Not found"` (src/app.py line 129): Python's `or` replaces both `None` and
the falsy empty string by the sentinel. -/
def finalImageUrl (o : RequestOracle) (name : Json) : String :=
  match get_drug_image_url o name with
  | some u => if u = "" then "Not found" else u
  | none => "Not found"

/-- One iteration of the per-drug loop (src/app.py lines 127-129): the entry
must be a `dict` (anything else raises `AttributeError` on `.get`, modelled
as `none`); the name defaults to `""` when absent; the entry is mutated by
adding or overwriting its `image_url` key. -/
def resolveDrug (o : RequestOracle) (drug : Json) : Option Json :=
  match drug with
  | .obj kvs =>
    some (.obj (setKey kvs "image_url"
      (.str (finalImageUrl o ((lookupKey "name" kvs).getD (.str ""))))))
  | _ => none

/-- Python iteration over an arbitrary `json.loads` value: lists yield their
elements, strings their one-character substrings, dicts their keys; numbers,
booleans and `None` raise `TypeError` (`none`). -/
def pyIter : Json → Option (List Json)
  | .arr xs => some xs
  | .str s => some (s.toList.map (fun c => .str (String.mk [c])))
  | .obj kvs => some (kvs.map (fun kv => .str kv.1))
  | _ => none

/-- `Option`-valued map over a list, failing as soon as one element fails —
the sequential per-drug loop. -/
def mapOpt (f : Json → Option Json) : List Json → Option (List Json)
  | [] => some []
  | x :: xs =>
    match f x with
    | none => none
    | some y => (mapOpt f xs).map (y :: ·)

/-- One step of the key-normalisation loop (src/app.py lines 132-134):
`if key not in extracted_data: extracted_data[key] = None`. -/
def ensureStep (acc : List (String × Json)) (k : String) : List (String × Json) :=
  match lookupKey k acc with
  | some _ => acc
  | none => acc ++ [(k, Json.null)]

/-- The key-normalisation loop unrolled over its literal key list
`["diagnosis", "benefits", "dos_donts", "possible_conditions"]`
(src/app.py lines 132-134).  Note the list does not contain `"drugs"`. -/
def ensureKeys (kvs : List (String × Json)) : List (String × Json) :=
  ensureStep (ensureStep (ensureStep (ensureStep kvs "diagnosis") "benefits")
    "dos_donts") "possible_conditions"

/-- The endpoint body between extraction and the success response
(src/app.py lines 127-134): the per-drug loop over
`extracted_data.get("drugs", [])` followed by key normalisation.  A non-dict
extraction result raises on `.get` (`none`); a missing `drugs` key iterates
the default `[]`; a `drugs` value that is a list has its (mutated) entries
kept in place; iterating a non-list value either raises or — for an empty
string or empty dict — performs no iterations and leaves the value as is. -/
def enrichData (o : RequestOracle) : Json → Option Json
  | .obj kvs =>
    (match lookupKey "drugs" kvs with
     | none => some (.obj (ensureKeys kvs))
     | some (.arr xs) =>
       (mapOpt (resolveDrug o) xs).map
         (fun xs₂ => .obj (ensureKeys (setKey kvs "drugs" (.arr xs₂))))
     | some other =>
       match pyIter other with
       | none => none
       | some items =>
         (mapOpt (resolveDrug o) items).map (fun _ => .obj (ensureKeys kvs)))
  | _ => none

/-- The body of the endpoint's `try` block (src/app.py lines 118-136):
`none` models any raised exception on the way to the success response. -/
def run_pipeline (o : RequestOracle) : Option Json :=
  if o.decodeOk then
    match o.geminiReply with
    | some reply =>
      match extract_data_from_image reply with
      | .ok data => enrichData o data
      | .error _ => none
    | none => none
  else none

/-- An HTTP response as produced by `JSONResponse`: status code plus JSON
body. -/
structure HttpResponse where
  status_code : Nat
  content : Json

/-- The success body `{"status": "success", "data": extracted_data}`
(src/app.py line 136). -/
def success_envelope (d : Json) : Json :=
  .obj [("status", .str "success"), ("data", d)]

/-- The failure body built in the `except` handler (src/app.py lines
141-148). -/
def error_envelope (stackText : String) : Json :=
  .obj [("status", .str "error"),
        ("message", .str "Failed to extract data from prescription"),
        ("stack", .str stackText)]

/-- The `/extract` endpoint `extract_prescription` (src/app.py lines
116-148): the whole `try` body on success, and the catch-all `except` handler
converting any exception into the HTTP 500 error envelope. -/
def extract_prescription (o : RequestOracle) : HttpResponse :=
  match run_pipeline o with
  | some d => { status_code := 200, content := success_envelope d }
  | none => { status_code := 500, content := error_envelope o.stackText }

/-- Spec-side description of the recovery span: "search the reply for the
first `\x7b...\x7d` balanced-looking span (greedy match of the first `\x7b`
to the last `\x7d`)".  `sub` is a span of `cs` that starts at an opening
brace preceded by no other opening brace, and ends at a closing brace
followed by no other closing brace. -/
def SpecSpan (cs sub : List Char) : Prop :=
  ∃ pre mid post, cs = pre ++ sub ++ post ∧ sub = '{' :: (mid ++ ['}']) ∧
    (∀ c ∈ pre, c ≠ '{') ∧ (∀ c ∈ post, c ≠ '}')

/-- Spec-side description of the Verifier's verdict test: "the model's
textual answer is matched case-insensitively for the substring `yes`"
(no mention of stripping). -/
def containsYesCI (a : String) : Bool :=
  containsSeq "yes".toList (a.toList.map lowerChar)

/-- Concrete request world: the model transcribes only a diagnosis, no
`drugs` key, and every provider call fails. -/
def oW1 : RequestOracle :=
  RequestOracle.mk true (some "\x7b\"diagnosis\": \"Fever\"\x7d")
    (fun _ => none) (fun _ => none) (fun _ => none) "tb"

/-- Concrete request world: the uploaded bytes are not a decodable image. -/
def oW4 : RequestOracle :=
  RequestOracle.mk false none (fun _ => none) (fun _ => none) (fun _ => none) "tb"

/-- Concrete request world: the image-search provider fails on every query. -/
def oW5 : RequestOracle :=
  RequestOracle.mk true none (fun _ => none) (fun _ => none) (fun _ => none) "tb"

/-- Drug entry whose name has no search results. -/
def kvsW5 : List (String × Json) := [("name", Json.str "Unobtainium123")]

/-- Concrete request world: the search returns a candidate URL, the fetch
succeeds, and the model answers "no" to the verification question. -/
def oW6 : RequestOracle :=
  RequestOracle.mk true none (fun _ => some "http://img.example/x.png")
    (fun _ => some ()) (fun _ => some "no") "tb"

/-- Drug entry whose candidate image the Verifier rejects. -/
def kvsW6 : List (String × Json) := [("name", Json.str "Para")]

/-- Concrete request world for the full pipeline: one drug, no search
results. -/
def oW9 : RequestOracle :=
  RequestOracle.mk true
    (some "\x7b\"drugs\": [\x7b\"name\": \"Para\", \"dosage\": \"1-0-1\"\x7d], \"diagnosis\": \"Flu\"\x7d")
    (fun _ => none) (fun _ => none) (fun _ => none) "tb"

/-- The extraction record parsed out of `oW9`'s model reply. -/
def kvsW9 : List (String × Json) :=
  [("drugs", Json.arr [Json.obj [("name", Json.str "Para"), ("dosage", Json.str "1-0-1")]]),
   ("diagnosis", Json.str "Flu")]

/-- The drugs list of `kvsW9`. -/
def xsW9 : List Json :=
  [Json.obj [("name", Json.str "Para"), ("dosage", Json.str "1-0-1")]]

/-- The final `data` object produced by the pipeline on `oW9`. -/
def dW9 : Json :=
  Json.obj (ensureKeys (setKey kvsW9 "drugs"
    (Json.arr [Json.obj [("name", Json.str "Para"), ("dosage", Json.str "1-0-1"),
      ("image_url", Json.str "Not found")]])))

/-- Concrete request world for the nameless-entry scenario. -/
def oW10 : RequestOracle :=
  RequestOracle.mk true none (fun _ => none) (fun _ => none) (fun _ => none) "tb"

/-- Drug entry with no `name` key at all. -/
def kvsW10 : List (String × Json) := [("dosage", Json.str "2x daily")]

theorem lookupKey_setKey_self (kvs : List (String × Json)) (k : String) (v : Json) :
    lookupKey k (setKey kvs k v) = some v := by
  induction kvs with
  | nil => simp [setKey, lookupKey]
  | cons kv rest ih =>
    obtain ⟨k₂, v₂⟩ := kv
    by_cases h : k₂ = k
    · simp [setKey, h, lookupKey]
    · simp [setKey, h, lookupKey, ih]

theorem lookupKey_setKey_ne (kvs : List (String × Json)) (k k₂ : String) (v : Json)
    (h : k₂ ≠ k) : lookupKey k₂ (setKey kvs k v) = lookupKey k₂ kvs := by
  induction kvs with
  | nil =>
    have hne : ¬ k = k₂ := fun hh => h hh.symm
    simp [setKey, lookupKey, hne]
  | cons kv rest ih =>
    obtain ⟨k₃, v₃⟩ := kv
    by_cases hk : k₃ = k
    · subst hk
      have hne : ¬ k₃ = k₂ := fun hh => h hh.symm
      simp [setKey, lookupKey, hne]
    · simp [setKey, hk, lookupKey, ih]

theorem lookupKey_append_some (l₁ l₂ : List (String × Json)) (k : String) (v : Json)
    (h : lookupKey k l₁ = some v) : lookupKey k (l₁ ++ l₂) = some v := by
  induction l₁ with
  | nil => simp [lookupKey] at h
  | cons kv rest ih =>
    obtain ⟨k₂, v₂⟩ := kv
    by_cases hk : k₂ = k
    · simp [lookupKey, hk] at h ⊢
      exact h
    · simp [lookupKey, hk] at h ⊢
      exact ih h

theorem lookupKey_append_none (l₁ l₂ : List (String × Json)) (k : String)
    (h : lookupKey k l₁ = none) : lookupKey k (l₁ ++ l₂) = lookupKey k l₂ := by
  induction l₁ with
  | nil => simp
  | cons kv rest ih =>
    obtain ⟨k₂, v₂⟩ := kv
    by_cases hk : k₂ = k
    · simp [lookupKey, hk] at h
    · simp [lookupKey, hk] at h ⊢
      exact ih h

theorem ensureStep_isSome_self (acc : List (String × Json)) (k : String) :
    (lookupKey k (ensureStep acc k)).isSome := by
  unfold ensureStep
  cases h : lookupKey k acc with
  | some v => simp [h]
  | none =>
    rw [lookupKey_append_none acc _ k h]
    simp [lookupKey]

theorem ensureStep_isSome_mono (acc : List (String × Json)) (k k₂ : String)
    (h : (lookupKey k acc).isSome) : (lookupKey k (ensureStep acc k₂)).isSome := by
  unfold ensureStep
  cases h₂ : lookupKey k₂ acc with
  | some v => simpa [h₂] using h
  | none =>
    cases hk : lookupKey k acc with
    | none => rw [hk] at h; simp at h
    | some v => rw [lookupKey_append_some acc _ k v hk]; simp

theorem ensureKeys_present (kvs : List (String × Json)) :
    (lookupKey "diagnosis" (ensureKeys kvs)).isSome ∧
    (lookupKey "benefits" (ensureKeys kvs)).isSome ∧
    (lookupKey "dos_donts" (ensureKeys kvs)).isSome ∧
    (lookupKey "possible_conditions" (ensureKeys kvs)).isSome := by
  unfold ensureKeys
  refine ⟨?_, ?_, ?_, ?_⟩
  · exact ensureStep_isSome_mono _ _ _ (ensureStep_isSome_mono _ _ _
      (ensureStep_isSome_mono _ _ _ (ensureStep_isSome_self kvs "diagnosis")))
  · exact ensureStep_isSome_mono _ _ _ (ensureStep_isSome_mono _ _ _
      (ensureStep_isSome_self _ "benefits"))
  · exact ensureStep_isSome_mono _ _ _ (ensureStep_isSome_self _ "dos_donts")
  · exact ensureStep_isSome_self _ "possible_conditions"

theorem enrichData_shape (o : RequestOracle) (data d : Json)
    (h : enrichData o data = some d) : ∃ kvs, d = Json.obj (ensureKeys kvs) := by
  cases data with
  | obj kvs =>
    simp only [enrichData] at h
    cases hd : lookupKey "drugs" kvs with
    | none =>
      rw [hd] at h
      exact ⟨kvs, by simpa using h.symm⟩
    | some dv =>
      rw [hd] at h
      cases dv with
      | arr xs =>
        have h₂ : (mapOpt (resolveDrug o) xs).map
            (fun xs₂ => Json.obj (ensureKeys (setKey kvs "drugs" (Json.arr xs₂)))) = some d := h
        cases hm : mapOpt (resolveDrug o) xs with
        | none => rw [hm] at h₂; simp at h₂
        | some xs₂ =>
          rw [hm] at h₂
          simp at h₂
          exact ⟨setKey kvs "drugs" (Json.arr xs₂), h₂.symm⟩
      | null =>
        have h₂ : (none : Option Json) = some d := h
        simp at h₂
      | bool b =>
        have h₂ : (none : Option Json) = some d := h
        simp at h₂
      | num n =>
        have h₂ : (none : Option Json) = some d := h
        simp at h₂
      | str s =>
        have h₂ : (mapOpt (resolveDrug o) (s.toList.map (fun c => Json.str (String.mk [c])))).map
            (fun _ => Json.obj (ensureKeys kvs)) = some d := h
        cases hm : mapOpt (resolveDrug o) (s.toList.map (fun c => Json.str (String.mk [c]))) with
        | none => rw [hm] at h₂; simp at h₂
        | some ys => rw [hm] at h₂; simp at h₂; exact ⟨kvs, h₂.symm⟩
      | obj kvs₂ =>
        have h₂ : (mapOpt (resolveDrug o) (kvs₂.map (fun kv => Json.str kv.1))).map
            (fun _ => Json.obj (ensureKeys kvs)) = some d := h
        cases hm : mapOpt (resolveDrug o) (kvs₂.map (fun kv => Json.str kv.1)) with
        | none => rw [hm] at h₂; simp at h₂
        | some ys => rw [hm] at h₂; simp at h₂; exact ⟨kvs, h₂.symm⟩
  | null => simp [enrichData] at h
  | bool b => simp [enrichData] at h
  | num n => simp [enrichData] at h
  | str s => simp [enrichData] at h
  | arr xs => simp [enrichData] at h

theorem firstIdx_decomp (ch : Char) (cs : List Char) (i : Nat)
    (h : firstIdx ch cs = some i) :
    ∃ pre rest, cs = pre ++ ch :: rest ∧ pre.length = i ∧ ∀ c ∈ pre, c ≠ ch := by
  induction cs generalizing i with
  | nil => simp [firstIdx] at h
  | cons c cs ih =>
    by_cases hc : c = ch
    · subst hc
      simp [firstIdx] at h
      exact ⟨[], cs, rfl, by simp [← h], by simp⟩
    · simp only [firstIdx, if_neg hc] at h
      cases hf : firstIdx ch cs with
      | none => rw [hf] at h; simp at h
      | some i₂ =>
        rw [hf] at h
        simp at h
        obtain ⟨pre, rest, hcs, hlen, hall⟩ := ih i₂ hf
        refine ⟨c :: pre, rest, by simp [hcs], by simp [hlen, ← h], ?_⟩
        intro x hx
        rcases List.mem_cons.mp hx with hx₂ | hx₂
        · subst hx₂; exact hc
        · exact hall x hx₂

theorem lastIdx_none_all (ch : Char) (cs : List Char) (h : lastIdx ch cs = none) :
    ∀ c ∈ cs, c ≠ ch := by
  induction cs with
  | nil => simp
  | cons c cs ih =>
    simp only [lastIdx] at h
    cases hl : lastIdx ch cs with
    | some j => rw [hl] at h; simp at h
    | none =>
      rw [hl] at h
      by_cases hc : c = ch
      · rw [if_pos hc] at h; simp at h
      · intro x hx
        rcases List.mem_cons.mp hx with hx₂ | hx₂
        · subst hx₂; exact hc
        · exact ih hl x hx₂

theorem lastIdx_decomp (ch : Char) (cs : List Char) (j : Nat)
    (h : lastIdx ch cs = some j) :
    ∃ front post, cs = front ++ ch :: post ∧ front.length = j ∧ ∀ c ∈ post, c ≠ ch := by
  induction cs generalizing j with
  | nil => simp [lastIdx] at h
  | cons c cs ih =>
    simp only [lastIdx] at h
    cases hl : lastIdx ch cs with
    | some j₂ =>
      rw [hl] at h
      simp at h
      obtain ⟨front, post, hcs, hlen, hall⟩ := ih j₂ hl
      exact ⟨c :: front, post, by simp [hcs], by simp [hlen, ← h], hall⟩
    | none =>
      rw [hl] at h
      by_cases hc : c = ch
      · rw [if_pos hc] at h
        simp at h
        subst hc
        exact ⟨[], cs, rfl, by simp [← h], lastIdx_none_all c cs hl⟩
      · rw [if_neg hc] at h; simp at h

theorem firstIdx_append (ch : Char) (pre rest : List Char)
    (hpre : ∀ c ∈ pre, c ≠ ch) : firstIdx ch (pre ++ ch :: rest) = some pre.length := by
  induction pre with
  | nil => simp [firstIdx]
  | cons c pre ih =>
    have hc : c ≠ ch := hpre c (by simp)
    have ih₂ := ih (fun x hx => hpre x (List.mem_cons_of_mem c hx))
    simp only [List.cons_append, firstIdx, if_neg hc]
    simp [ih₂]

theorem lastIdx_none_of_all (ch : Char) (cs : List Char) (h : ∀ c ∈ cs, c ≠ ch) :
    lastIdx ch cs = none := by
  induction cs with
  | nil => simp [lastIdx]
  | cons c cs ih =>
    simp only [lastIdx]
    rw [ih (fun x hx => h x (List.mem_cons_of_mem c hx))]
    rw [if_neg (h c (by simp))]

theorem lastIdx_append (ch : Char) (front post : List Char)
    (hpost : ∀ c ∈ post, c ≠ ch) : lastIdx ch (front ++ ch :: post) = some front.length := by
  induction front with
  | nil =>
    simp only [List.nil_append, lastIdx]
    rw [lastIdx_none_of_all ch post hpost]
    simp
  | cons c front ih =>
    simp only [List.cons_append, lastIdx]
    simp [ih]

theorem braceSpan_of_specSpan (cs sub : List Char) (h : SpecSpan cs sub) :
    braceSpan cs = some sub := by
  obtain ⟨pre, mid, post, hcs, hsub, hpre, hpost⟩ := h
  subst hsub
  subst hcs
  have h1 : firstIdx '{' (pre ++ ('{' :: (mid ++ ['}'])) ++ post) = some pre.length := by
    have := firstIdx_append '{' pre ((mid ++ ['}']) ++ post) hpre
    simpa [List.append_assoc] using this
  have h2 : lastIdx '}' (pre ++ ('{' :: (mid ++ ['}'])) ++ post)
      = some (pre.length + (mid.length + 1)) := by
    have := lastIdx_append '}' (pre ++ '{' :: mid) post hpost
    have heq : (pre ++ '{' :: mid) ++ '}' :: post
        = pre ++ ('{' :: (mid ++ ['}'])) ++ post := by
      simp [List.append_assoc]
    rw [heq] at this
    simpa using this
  have hlt : pre.length < pre.length + (mid.length + 1) := by omega
  have hdrop : ((pre ++ (('{' :: (mid ++ ['}'])) ++ post)).drop pre.length)
      = ('{' :: (mid ++ ['}'])) ++ post :=
    List.drop_left pre (('{' :: (mid ++ ['}'])) ++ post)
  have hn : pre.length + (mid.length + 1) - pre.length + 1
      = ('{' :: (mid ++ ['}'])).length := by
    have hlen : ('{' :: (mid ++ ['}'])).length = mid.length + 2 := by simp
    omega
  simp only [braceSpan, h1, h2, if_pos hlt]
  rw [List.append_assoc, hdrop, hn, List.take_left]

theorem specSpan_of_braceSpan (cs sub : List Char) (h : braceSpan cs = some sub) :
    SpecSpan cs sub := by
  unfold braceSpan at h
  cases hf : firstIdx '{' cs with
  | none => rw [hf] at h; simp at h
  | some i =>
    rw [hf] at h
    cases hl : lastIdx '}' cs with
    | none => rw [hl] at h; simp at h
    | some j =>
      rw [hl] at h
      have h₂ : (if i < j then some ((cs.drop i).take (j - i + 1)) else none)
          = some sub := h
      by_cases hij : i < j
      · rw [if_pos hij] at h₂
        simp at h₂
        obtain ⟨pre, rest, hcs, hlen, hpre⟩ := firstIdx_decomp '{' cs i hf
        obtain ⟨front, post, hcs₂, hlen₂, hpost⟩ := lastIdx_decomp '}' cs j hl
        have hdrop₁ : cs.drop i = '{' :: rest := by
          rw [hcs]
          have := List.drop_left pre ('{' :: rest)
          rw [hlen] at this
          exact this
        have hdrop₂ : cs.drop i = (front.drop i) ++ '}' :: post := by
          rw [hcs₂]
          exact List.drop_append_of_le_length (by omega)
        have hmidlen : (front.drop i).length = j - i := by
          simp [hlen₂]
        have hrest₂ : '{' :: rest = (front.drop i) ++ '}' :: post := by
          rw [← hdrop₁, hdrop₂]
        have hsub : sub = ((front.drop i) ++ '}' :: post).take (j - i + 1) := by
          rw [← hdrop₂]
          exact h₂.symm
        have htake : ((front.drop i) ++ '}' :: post).take (j - i + 1)
            = (front.drop i) ++ ['}'] := by
          rw [List.take_append_eq_append_take]
          rw [List.take_of_length_le (by omega)]
          have hone : j - i + 1 - (front.drop i).length = 1 := by omega
          rw [hone]
          simp
        rw [htake] at hsub
        cases hfd : front.drop i with
        | nil => rw [hfd] at hmidlen; simp at hmidlen; omega
        | cons c mid =>
          rw [hfd] at hrest₂ hsub
          have hc : '{' = c := (List.cons.injEq _ _ _ _ |>.mp hrest₂).1
          have hrest₃ : rest = mid ++ '}' :: post :=
            (List.cons.injEq _ _ _ _ |>.mp hrest₂).2
          refine ⟨pre, mid, post, ?_, ?_, hpre, hpost⟩
          · rw [hcs, hrest₃, hsub, ← hc]
            simp
          · rw [hsub, ← hc]
            simp
      · rw [if_neg hij] at h₂; simp at h₂

theorem startsWith_iff (n h : List Char) :
    startsWith n h = true ↔ ∃ t, h = n ++ t := by
  induction n generalizing h with
  | nil => simp [startsWith]
  | cons a as ih =>
    cases h with
    | nil => simp [startsWith]
    | cons b bs =>
      simp only [startsWith, Bool.and_eq_true, decide_eq_true_eq]
      constructor
      · rintro ⟨hab, hs⟩
        obtain ⟨t, ht⟩ := (ih bs).mp hs
        exact ⟨t, by simp [hab, ht]⟩
      · rintro ⟨t, ht⟩
        simp only [List.cons_append, List.cons.injEq] at ht
        obtain ⟨hab, hbs⟩ := ht
        exact ⟨hab.symm, (ih bs).mpr ⟨t, hbs⟩⟩

theorem containsSeq_iff (n h : List Char) :
    containsSeq n h = true ↔ ∃ u v, h = u ++ n ++ v := by
  induction h with
  | nil =>
    simp only [containsSeq, List.isEmpty_iff]
    constructor
    · intro hn; exact ⟨[], [], by simp [hn]⟩
    · rintro ⟨u, v, huv⟩
      rcases List.append_eq_nil.mp (List.append_eq_nil.mp huv.symm).1 with ⟨_, hn⟩
      exact hn
  | cons b bs ih =>
    simp only [containsSeq, Bool.or_eq_true]
    constructor
    · rintro (hs | hc)
      · obtain ⟨t, ht⟩ := (startsWith_iff n (b :: bs)).mp hs
        exact ⟨[], t, by simp [ht]⟩
      · obtain ⟨u, v, huv⟩ := ih.mp hc
        exact ⟨b :: u, v, by simp [huv]⟩
    · rintro ⟨u, v, huv⟩
      cases u with
      | nil =>
        left
        exact (startsWith_iff n (b :: bs)).mpr ⟨v, by simpa using huv⟩
      | cons c u₂ =>
        right
        simp only [List.cons_append, List.cons.injEq] at huv
        exact ih.mpr ⟨u₂, v, huv.2⟩

theorem dropWhile_keeps (n : List Char) (hn : ∀ c ∈ n, ws c = false) (hne : n ≠ [])
    (l u v : List Char) (hl : l = u ++ n ++ v) :
    ∃ u₂ v₂, l.dropWhile ws = u₂ ++ n ++ v₂ := by
  induction u generalizing l with
  | nil =>
    cases n with
    | nil => exact absurd rfl hne
    | cons a as =>
      have ha : ws a = false := hn a (by simp)
      subst hl
      simp only [List.nil_append, List.cons_append, List.dropWhile_cons, ha]
      exact ⟨[], v, by simp⟩
  | cons a u₂ ih =>
    subst hl
    by_cases ha : ws a
    · simp only [List.cons_append, List.dropWhile_cons, ha]
      exact ih (u₂ ++ n ++ v) rfl
    · simp only [List.cons_append, List.dropWhile_cons, ha]
      exact ⟨a :: u₂, v, by simp⟩

theorem dropWhile_sub (l : List Char) : ∃ u, l = u ++ l.dropWhile ws := by
  induction l with
  | nil => exact ⟨[], rfl⟩
  | cons a l ih =>
    by_cases ha : ws a
    · obtain ⟨u, hu⟩ := ih
      exact ⟨a :: u, by simp only [List.dropWhile_cons, ha]; simpa using hu⟩
    · exact ⟨[], by simp only [List.dropWhile_cons, ha]; simp⟩

theorem listTrim_sub (cs : List Char) : ∃ u v, cs = u ++ listTrim cs ++ v := by
  obtain ⟨u₁, h₁⟩ := dropWhile_sub cs
  obtain ⟨u₂, h₂⟩ := dropWhile_sub (cs.dropWhile ws).reverse
  refine ⟨u₁, u₂.reverse, ?_⟩
  unfold listTrim
  have h₃ : (cs.dropWhile ws) = ((cs.dropWhile ws).reverse.dropWhile ws).reverse ++ u₂.reverse := by
    calc (cs.dropWhile ws) = (cs.dropWhile ws).reverse.reverse := by simp
    _ = (u₂ ++ (cs.dropWhile ws).reverse.dropWhile ws).reverse := by rw [← h₂]
    _ = ((cs.dropWhile ws).reverse.dropWhile ws).reverse ++ u₂.reverse := by simp
  calc cs = u₁ ++ cs.dropWhile ws := h₁
  _ = u₁ ++ (((cs.dropWhile ws).reverse.dropWhile ws).reverse ++ u₂.reverse) := by rw [← h₃]
  _ = u₁ ++ ((cs.dropWhile ws).reverse.dropWhile ws).reverse ++ u₂.reverse := by
      rw [List.append_assoc]

theorem trim_keeps (n : List Char) (hn : ∀ c ∈ n, ws c = false) (hne : n ≠ [])
    (l u v : List Char) (hl : l = u ++ n ++ v) :
    ∃ u₂ v₂, listTrim l = u₂ ++ n ++ v₂ := by
  obtain ⟨u₁, v₁, h₁⟩ := dropWhile_keeps n hn hne l u v hl
  have hrev : (l.dropWhile ws).reverse = v₁.reverse ++ n.reverse ++ u₁.reverse := by
    rw [h₁]
    simp [List.append_assoc]
  have hn₂ : ∀ c ∈ n.reverse, ws c = false := by
    intro c hc
    exact hn c (List.mem_reverse.mp hc)
  have hne₂ : n.reverse ≠ [] := by
    simpa using hne
  obtain ⟨u₃, v₃, h₃⟩ :=
    dropWhile_keeps n.reverse hn₂ hne₂ (l.dropWhile ws).reverse _ _ hrev
  refine ⟨v₃.reverse, u₃.reverse, ?_⟩
  unfold listTrim
  rw [h₃]
  simp [List.append_assoc]

theorem toNat_ofNat_valid (n : Nat) (h : n < 55296) : (Char.ofNat n).toNat = n := by
  have hv : n.isValidChar := Or.inl h
  unfold Char.ofNat
  rw [dif_pos hv]
  simp [Char.ofNatAux, Char.toNat, UInt32.toNat, BitVec.toNat_ofNatLt]

theorem ws_false_of_toNat (c : Char) (h : 33 ≤ c.toNat) : ws c = false := by
  have h1 : c ≠ ' ' := fun he => absurd (he ▸ h) (by decide)
  have h2 : c ≠ '\t' := fun he => absurd (he ▸ h) (by decide)
  have h3 : c ≠ '\n' := fun he => absurd (he ▸ h) (by decide)
  have h4 : c ≠ '\r' := fun he => absurd (he ▸ h) (by decide)
  simp [ws, h1, h2, h3, h4]

theorem ws_lowerChar (c : Char) : ws (lowerChar c) = ws c := by
  by_cases h : 65 ≤ c.toNat ∧ c.toNat ≤ 90
  · rw [lowerChar, if_pos h]
    have h₂ : (Char.ofNat (c.toNat + 32)).toNat = c.toNat + 32 :=
      toNat_ofNat_valid _ (by omega)
    rw [ws_false_of_toNat c (by omega), ws_false_of_toNat _ (by rw [h₂]; omega)]
  · rw [lowerChar, if_neg h]

theorem dropWhile_map_lower (cs : List Char) :
    (cs.map lowerChar).dropWhile ws = (cs.dropWhile ws).map lowerChar := by
  induction cs with
  | nil => simp
  | cons c cs ih =>
    by_cases hc : ws c
    · have hc₂ : ws (lowerChar c) = true := by rw [ws_lowerChar]; exact hc
      simp [List.dropWhile_cons, hc, hc₂, ih]
    · have hc₃ : ws c = false := by simpa using hc
      have hc₂ : ws (lowerChar c) = false := by rw [ws_lowerChar]; exact hc₃
      simp [List.dropWhile_cons, hc₃, hc₂]

theorem listTrim_map_lower (cs : List Char) :
    listTrim (cs.map lowerChar) = (listTrim cs).map lowerChar := by
  unfold listTrim
  rw [dropWhile_map_lower]
  rw [← List.map_reverse]
  rw [dropWhile_map_lower]
  rw [← List.map_reverse]

theorem containsYes_trim (cs : List Char) :
    containsSeq "yes".toList ((listTrim cs).map lowerChar)
      = containsSeq "yes".toList (cs.map lowerChar) := by
  have hyes : ∀ c ∈ "yes".toList, ws c = false := by decide
  have hne : "yes".toList ≠ [] := by decide
  cases h₁ : containsSeq "yes".toList ((listTrim cs).map lowerChar) with
  | true =>
    obtain ⟨u, v, huv⟩ := (containsSeq_iff _ _).mp h₁
    obtain ⟨p, q, hpq⟩ := listTrim_sub cs
    have : cs.map lowerChar = (p.map lowerChar ++ u) ++ "yes".toList ++ (v ++ q.map lowerChar) := by
      rw [hpq]
      simp only [List.map_append, huv]
      simp [List.append_assoc]
    exact ((containsSeq_iff _ _).mpr ⟨p.map lowerChar ++ u, v ++ q.map lowerChar, this⟩).symm
  | false =>
    cases h₂ : containsSeq "yes".toList (cs.map lowerChar) with
    | false => rfl
    | true =>
      exfalso
      obtain ⟨u, v, huv⟩ := (containsSeq_iff _ _).mp h₂
      obtain ⟨u₂, v₂, h₃⟩ := trim_keeps "yes".toList hyes hne (cs.map lowerChar) u v huv
      rw [listTrim_map_lower] at h₃
      have h₄ := (containsSeq_iff "yes".toList ((listTrim cs).map lowerChar)).mpr ⟨u₂, v₂, h₃⟩
      rw [h₁] at h₄
      exact Bool.false_ne_true h₄

theorem mapOpt_some (f : Json → Option Json) (xs ys : List Json)
    (h : mapOpt f xs = some ys) :
    ys.length = xs.length ∧
      ∀ i (hi : i < xs.length) (hi₂ : i < ys.length),
        f (xs.get ⟨i, hi⟩) = some (ys.get ⟨i, hi₂⟩) := by
  induction xs generalizing ys with
  | nil =>
    simp only [mapOpt] at h
    obtain rfl : ([] : List Json) = ys := Option.some.inj h
    exact ⟨rfl, by intro i hi; simp at hi⟩
  | cons x xs ih =>
    simp only [mapOpt] at h
    cases hx : f x with
    | none => rw [hx] at h; simp at h
    | some y =>
      rw [hx] at h
      cases hm : mapOpt f xs with
      | none => rw [hm] at h; simp at h
      | some ys₂ =>
        rw [hm] at h
        simp at h
        obtain ⟨hlen, hidx⟩ := ih ys₂ hm
        subst h
        refine ⟨by simp [hlen], ?_⟩
        intro i hi hi₂
        cases i with
        | zero => simpa using hx
        | succ i₂ =>
          simp only [List.get_cons_succ]
          exact hidx i₂ (by simpa using hi) (by simpa using hi₂)

/-- Claim C5: for every drug name, if the image-search provider call fails
(network error, bad response shape) or returns no items — all modelled by the
search oracle returning `none` — the Resolver returns `None`, the loop stores
the `"Not found"` sentinel for that drug, and no exception is raised (both
functions are total and return `some`), so the failure is never escalated to
a request-level failure. -/
theorem claim_C5 (o : RequestOracle) (kvs : List (String × Json))
    (hsearch : o.search ((lookupKey "name" kvs).getD (Json.str "")) = none) :
    get_drug_image_url o ((lookupKey "name" kvs).getD (Json.str "")) = none ∧
    resolveDrug o (Json.obj kvs)
      = some (Json.obj (setKey kvs "image_url" (Json.str "Not found"))) := by
  have hget : get_drug_image_url o ((lookupKey "name" kvs).getD (Json.str "")) = none := by
    unfold get_drug_image_url
    rw [hsearch]
  exact ⟨hget, by simp only [resolveDrug, finalImageUrl, hget]⟩

/-- Witness for C5 at a concrete request world. -/
theorem claim_C5_witness :
    oW5.search ((lookupKey "name" kvsW5).getD (Json.str "")) = none ∧
    resolveDrug oW5 (Json.obj kvsW5)
      = some (Json.obj (setKey kvsW5 "image_url" (Json.str "Not found"))) :=
  ⟨rfl, (claim_C5 oW5 kvsW5 rfl).2⟩

/-- Claim C6: whenever the Verifier rejects a candidate URL
(`is_valid_capsule_image` returns `false`), the drug entry's `image_url` in
the final record is the `"Not found"` sentinel, and — as long as the
candidate is not literally the sentinel string — the rejected candidate URL
is never exposed. -/
theorem claim_C6 (o : RequestOracle) (kvs : List (String × Json)) (url : String)
    (hsearch : o.search ((lookupKey "name" kvs).getD (Json.str "")) = some url)
    (hrej : is_valid_capsule_image (o.fetch url) (o.verifyAnswer url) = false) :
    resolveDrug o (Json.obj kvs)
      = some (Json.obj (setKey kvs "image_url" (Json.str "Not found"))) ∧
    lookupKey "image_url" (setKey kvs "image_url" (Json.str "Not found"))
      = some (Json.str "Not found") ∧
    (url ≠ "Not found" →
      lookupKey "image_url" (setKey kvs "image_url" (Json.str "Not found"))
        ≠ some (Json.str url)) := by
  have hget : get_drug_image_url o ((lookupKey "name" kvs).getD (Json.str "")) = none := by
    simp [get_drug_image_url, hsearch, hrej]
  refine ⟨by simp only [resolveDrug, finalImageUrl, hget], lookupKey_setKey_self _ _ _, ?_⟩
  intro hne hcontra
  rw [lookupKey_setKey_self] at hcontra
  exact hne (Json.str.inj (Option.some.inj hcontra)).symm

/-- Witness for C6 at a concrete request world. -/
theorem claim_C6_witness :
    oW6.search ((lookupKey "name" kvsW6).getD (Json.str "")) = some "http://img.example/x.png" ∧
    is_valid_capsule_image (oW6.fetch "http://img.example/x.png")
      (oW6.verifyAnswer "http://img.example/x.png") = false ∧
    resolveDrug oW6 (Json.obj kvsW6)
      = some (Json.obj (setKey kvsW6 "image_url" (Json.str "Not found"))) :=
  ⟨rfl, rfl, (claim_C6 oW6 kvsW6 "http://img.example/x.png" rfl rfl).1⟩

/-- Claim C7: the Verifier returns `false` — never a propagated error — when
the fetch or decode of the candidate image fails, and `false` when the model
call itself fails; when a textual answer is obtained it returns `true`
exactly when the answer contains the substring `"yes"` case-insensitively
(the stripping the code performs never changes this test), so any other
answer — ambiguous, refusal, empty — yields `false`. -/
theorem claim_C7 :
    (∀ answer, is_valid_capsule_image none answer = false) ∧
    (∀ fetched, is_valid_capsule_image fetched none = false) ∧
    (∀ a, is_valid_capsule_image (some ()) (some a) = containsYesCI a) := by
  refine ⟨fun answer => rfl, fun fetched => ?_, fun a => ?_⟩
  · cases fetched <;> rfl
  · simp only [is_valid_capsule_image, containsYesCI]
    exact containsYes_trim a.toList

/-- Claim C8: a model reply that is itself a valid JSON document is parsed
directly by the first tier, and the Extractor's output is exactly that
parse. -/
theorem claim_C8 (reply : String) (j : Json)
    (h : parseJsonList (listTrim reply.toList) = some j) :
    extract_data_from_image reply = Except.ok j := by
  unfold extract_data_from_image
  rw [h]

/-- Witness for C8 at a concrete JSON reply. -/
theorem claim_C8_witness :
    parseJsonList (listTrim "\x7b\"diagnosis\": \"Flu\"\x7d".toList)
      = some (Json.obj [("diagnosis", Json.str "Flu")]) ∧
    extract_data_from_image "\x7b\"diagnosis\": \"Flu\"\x7d"
      = Except.ok (Json.obj [("diagnosis", Json.str "Flu")]) :=
  ⟨rfl, claim_C8 "\x7b\"diagnosis\": \"Flu\"\x7d" (Json.obj [("diagnosis", Json.str "Flu")]) rfl⟩

/-- Claim C10: a drug entry that is a dict with no `name` key (or an empty
name) is still processed to completion: the lookup runs with the empty
string as the drug name, the entry always gains an `image_url` key — a
verified URL or the `"Not found"` sentinel — and the per-drug step returns
`some`, so the request never fails on account of that entry. -/
theorem claim_C10 (o : RequestOracle) (kvs : List (String × Json))
    (hname : lookupKey "name" kvs = none ∨ lookupKey "name" kvs = some (Json.str "")) :
    resolveDrug o (Json.obj kvs)
      = some (Json.obj (setKey kvs "image_url" (Json.str (finalImageUrl o (Json.str ""))))) ∧
    lookupKey "image_url" (setKey kvs "image_url" (Json.str (finalImageUrl o (Json.str ""))))
      = some (Json.str (finalImageUrl o (Json.str ""))) ∧
    (finalImageUrl o (Json.str "") = "Not found" ∨
      get_drug_image_url o (Json.str "") = some (finalImageUrl o (Json.str ""))) := by
  have hn : (lookupKey "name" kvs).getD (Json.str "") = Json.str "" := by
    rcases hname with h | h <;> simp [h]
  refine ⟨by simp only [resolveDrug, hn], lookupKey_setKey_self _ _ _, ?_⟩
  rcases hg : get_drug_image_url o (Json.str "") with _ | u
  · left; simp [finalImageUrl, hg]
  · by_cases hu : u = ""
    · left; simp [finalImageUrl, hg, hu]
    · right; simp [finalImageUrl, hg, hu]

/-- Witness for C10 at a concrete nameless entry. -/
theorem claim_C10_witness :
    lookupKey "name" kvsW10 = none ∧
    resolveDrug oW10 (Json.obj kvsW10)
      = some (Json.obj (setKey kvsW10 "image_url"
          (Json.str (finalImageUrl oW10 (Json.str ""))))) :=
  ⟨rfl, (claim_C10 oW10 kvsW10 (Or.inl rfl)).1⟩

theorem run_pipeline_shape (o : RequestOracle) (d : Json)
    (h : run_pipeline o = some d) : ∃ kvs, d = Json.obj (ensureKeys kvs) := by
  unfold run_pipeline at h
  by_cases hd : o.decodeOk
  · rw [if_pos hd] at h
    cases hg : o.geminiReply with
    | none => rw [hg] at h; simp at h
    | some reply =>
      rw [hg] at h
      have h₂ : (match extract_data_from_image reply with
          | Except.ok data => enrichData o data
          | Except.error _ => none) = some d := h
      cases he : extract_data_from_image reply with
      | error e => rw [he] at h₂; simp at h₂
      | ok data => rw [he] at h₂; exact enrichData_shape o data d h₂
  · rw [if_neg hd] at h; simp at h

/-- Claim C4: whatever goes wrong inside the endpoint — undecodable image,
model-call failure, unrecoverable reply, or any other exception on the way to
the success response (all the `none` outcomes of `run_pipeline`) — the caller
receives HTTP 500 with a JSON object carrying `status = "error"` and a
non-empty `message`; otherwise HTTP 200 with the success envelope.  The
endpoint is a total function: no exception escapes it. -/
theorem claim_C4 (o : RequestOracle) :
    (((extract_prescription o).status_code = 200 ∧
        ∃ d, run_pipeline o = some d ∧
          (extract_prescription o).content = success_envelope d) ∨
      ((extract_prescription o).status_code = 500 ∧
        ∃ kvs, (extract_prescription o).content = Json.obj kvs ∧
          lookupKey "status" kvs = some (Json.str "error") ∧
          ∃ m, lookupKey "message" kvs = some (Json.str m) ∧ m ≠ "")) ∧
    (run_pipeline o = none → (extract_prescription o).status_code = 500) := by
  cases hr : run_pipeline o with
  | some d =>
    constructor
    · left
      refine ⟨by simp [extract_prescription, hr], d, rfl,
        by simp [extract_prescription, hr]⟩
    · intro hn
      exact absurd hn (by simp)
  | none =>
    constructor
    · right
      refine ⟨by simp [extract_prescription, hr], ?_⟩
      refine ⟨[("status", Json.str "error"),
               ("message", Json.str "Failed to extract data from prescription"),
               ("stack", Json.str o.stackText)],
        by simp [extract_prescription, hr, error_envelope], rfl,
        "Failed to extract data from prescription", rfl, by decide⟩
    · intro _
      simp [extract_prescription, hr]

/-- Witness for C4: a request whose uploaded bytes cannot be decoded. -/
theorem claim_C4_witness :
    run_pipeline oW4 = none ∧ (extract_prescription oW4).status_code = 500 :=
  ⟨rfl, (claim_C4 oW4).2 rfl⟩

/-- Claim C1 (amended): every success response's `data` object always carries
the four keys `diagnosis`, `benefits`, `dos_donts`, `possible_conditions` —
each populated or an explicit null — because the normalisation loop inserts
them; the `drugs` key, however, is NOT in the normalisation list, so it is
present only when the extraction output already contained it (see the
counterexample). -/
theorem claim_C1 (o : RequestOracle)
    (h : (extract_prescription o).status_code = 200) :
    ∃ d kvs, run_pipeline o = some d ∧
      (extract_prescription o).content = success_envelope d ∧
      d = Json.obj kvs ∧
      (lookupKey "diagnosis" kvs).isSome = true ∧
      (lookupKey "benefits" kvs).isSome = true ∧
      (lookupKey "dos_donts" kvs).isSome = true ∧
      (lookupKey "possible_conditions" kvs).isSome = true := by
  cases hr : run_pipeline o with
  | none =>
    exfalso
    have h₂ : (extract_prescription o).status_code = 500 := by
      simp [extract_prescription, hr]
    rw [h₂] at h
    exact absurd h (by simp)
  | some d =>
    obtain ⟨kvs₀, hd⟩ := run_pipeline_shape o d hr
    obtain ⟨h1, h2, h3, h4⟩ := ensureKeys_present kvs₀
    exact ⟨d, ensureKeys kvs₀, rfl, by simp [extract_prescription, hr], hd,
      h1, h2, h3, h4⟩

/-- Witness for C1 at a concrete successful request. -/
theorem claim_C1_witness :
    (extract_prescription oW1).status_code = 200 ∧
    (∃ d kvs, run_pipeline oW1 = some d ∧
      (extract_prescription oW1).content = success_envelope d ∧
      d = Json.obj kvs ∧
      (lookupKey "diagnosis" kvs).isSome = true ∧
      (lookupKey "benefits" kvs).isSome = true ∧
      (lookupKey "dos_donts" kvs).isSome = true ∧
      (lookupKey "possible_conditions" kvs).isSome = true) :=
  ⟨rfl, claim_C1 oW1 rfl⟩

/-- Counterexample to C1 as stated: when the model reply is the valid JSON
object with only a `diagnosis` field, the request succeeds (HTTP 200, success
envelope) but the `data` object has NO `drugs` key at all — the documented
top-level key `drugs` is absent from the success response, because the
normalisation loop only inserts the other four keys. -/
theorem claim_C1_counterexample :
    (extract_prescription oW1).status_code = 200 ∧
    (extract_prescription oW1).content = success_envelope (Json.obj
      [("diagnosis", Json.str "Fever"), ("benefits", Json.null),
       ("dos_donts", Json.null), ("possible_conditions", Json.null)]) ∧
    lookupKey "drugs"
      [("diagnosis", Json.str "Fever"), ("benefits", Json.null),
       ("dos_donts", Json.null), ("possible_conditions", Json.null)] = none :=
  ⟨rfl, rfl, rfl⟩

/-- Claim C2: the Extractor follows the tiered parsing policy exactly.  Tier
1: if the (stripped) reply parses as JSON, that parse is returned.  Tier 2:
otherwise, if the reply has a greedy first-brace-to-last-brace span (the
spec-side `SpecSpan` predicate), the Extractor returns that span's parse when
it succeeds and raises the hard parse-failure error when it does not.  Tier
3: with no such span, it raises the hard error.  `extract_data_from_image`
is a pure function, so identical replies always give identical outcomes
(determinism). -/
theorem claim_C2 (reply : String) :
    (∀ j, parseJsonList (listTrim reply.toList) = some j →
        extract_data_from_image reply = Except.ok j) ∧
    (parseJsonList (listTrim reply.toList) = none →
      ∀ sub, SpecSpan (listTrim reply.toList) sub →
        (∀ j, parseJsonList sub = some j → extract_data_from_image reply = Except.ok j) ∧
        (parseJsonList sub = none →
          extract_data_from_image reply = Except.error parseFailMsg)) ∧
    (parseJsonList (listTrim reply.toList) = none →
      (¬ ∃ sub, SpecSpan (listTrim reply.toList) sub) →
      extract_data_from_image reply = Except.error parseFailMsg) := by
  refine ⟨?_, ?_, ?_⟩
  · intro j h
    unfold extract_data_from_image
    rw [h]
  · intro hnone sub hspan
    have hbs : braceSpan (listTrim reply.toList) = some sub :=
      braceSpan_of_specSpan _ _ hspan
    constructor
    · intro j hj
      simp only [extract_data_from_image, hnone, hbs, hj]
    · intro hj
      simp only [extract_data_from_image, hnone, hbs, hj]
  · intro hnone hnospan
    cases hbs : braceSpan (listTrim reply.toList) with
    | some sub => exact absurd ⟨sub, specSpan_of_braceSpan _ _ hbs⟩ hnospan
    | none => simp only [extract_data_from_image, hnone, hbs]

/-- Witness for C2: a reply with prose before an embedded JSON object
exercises the second tier. -/
theorem claim_C2_witness :
    parseJsonList (listTrim "note \x7b\"a\": 1\x7d".toList) = none ∧
    SpecSpan (listTrim "note \x7b\"a\": 1\x7d".toList) "\x7b\"a\": 1\x7d".toList ∧
    extract_data_from_image "note \x7b\"a\": 1\x7d"
      = Except.ok (Json.obj [("a", Json.num 1)]) := by
  have hspan : SpecSpan (listTrim "note \x7b\"a\": 1\x7d".toList) "\x7b\"a\": 1\x7d".toList :=
    ⟨"note ".toList, "\"a\": 1".toList, [], rfl, rfl, by decide, by decide⟩
  exact ⟨rfl, hspan,
    ((claim_C2 "note \x7b\"a\": 1\x7d").2.1 rfl "\x7b\"a\": 1\x7d".toList hspan).1
      (Json.obj [("a", Json.num 1)]) rfl⟩

/-- Counterexample to C3 as stated: the reply embeds the valid JSON object
with one field `a`, surrounded by prose — but because the trailing prose
contains a stray closing brace, the greedy first-brace-to-last-brace span is
not that object, both tiers fail, and the Extractor raises instead of
recovering the embedded object. -/
theorem claim_C3_counterexample :
    parseJsonList "\x7b\"a\": 1\x7d".toList = some (Json.obj [("a", Json.num 1)]) ∧
    parseJsonList (listTrim "Result: \x7b\"a\": 1\x7d \x7d".toList) = none ∧
    extract_data_from_image "Result: \x7b\"a\": 1\x7d \x7d"
      ≠ Except.ok (Json.obj [("a", Json.num 1)]) := by
  refine ⟨rfl, rfl, ?_⟩
  intro hcontra
  have h₂ : (Except.error parseFailMsg : Except String Json)
      = Except.ok (Json.obj [("a", Json.num 1)]) := hcontra
  exact Except.noConfusion h₂

/-- Claim C3 (amended): if the reply embeds a valid JSON object inside
surrounding prose AND the prose before the object contains no opening brace
and the prose after it no closing brace (so the greedy first-brace-to-last-
brace span is exactly the embedded object), then the Extractor recovers
precisely the parse of that object; with braces in the surrounding prose the
recovery can fail, as the counterexample shows. -/
theorem claim_C3 (reply : String) (pre mid post : List Char) (j : Json)
    (hdecomp : listTrim reply.toList = pre ++ ('{' :: (mid ++ ['}'])) ++ post)
    (hpre : ∀ c ∈ pre, c ≠ '{') (hpost : ∀ c ∈ post, c ≠ '}')
    (hwhole : parseJsonList (listTrim reply.toList) = none)
    (hsub : parseJsonList ('{' :: (mid ++ ['}'])) = some j) :
    extract_data_from_image reply = Except.ok j := by
  have hspan : SpecSpan (listTrim reply.toList) ('{' :: (mid ++ ['}'])) :=
    ⟨pre, mid, post, hdecomp, rfl, hpre, hpost⟩
  have hbs := braceSpan_of_specSpan _ _ hspan
  simp only [extract_data_from_image, hwhole, hbs, hsub]

/-- Witness for the amended C3 at a concrete prose-wrapped reply. -/
theorem claim_C3_witness :
    listTrim "Here: \x7b\"a\": 1\x7d".toList
      = "Here: ".toList ++ ('{' :: ("\"a\": 1".toList ++ ['}'])) ++ [] ∧
    parseJsonList (listTrim "Here: \x7b\"a\": 1\x7d".toList) = none ∧
    parseJsonList ('{' :: ("\"a\": 1".toList ++ ['}'])) = some (Json.obj [("a", Json.num 1)]) ∧
    extract_data_from_image "Here: \x7b\"a\": 1\x7d"
      = Except.ok (Json.obj [("a", Json.num 1)]) :=
  ⟨rfl, rfl, rfl,
    claim_C3 "Here: \x7b\"a\": 1\x7d" "Here: ".toList "\"a\": 1".toList []
      (Json.obj [("a", Json.num 1)]) rfl (by decide) (by decide) rfl rfl⟩

theorem resolveDrug_frame (o : RequestOracle) (drug drug₂ : Json)
    (h : resolveDrug o drug = some drug₂) (k : String) (hk : k ≠ "image_url") :
    jsonGet k drug₂ = jsonGet k drug := by
  cases drug with
  | obj kvs =>
    simp only [resolveDrug] at h
    have hd : Json.obj (setKey kvs "image_url"
        (Json.str (finalImageUrl o ((lookupKey "name" kvs).getD (Json.str "")))))
        = drug₂ := Option.some.inj h
    rw [← hd]
    simp only [jsonGet]
    exact lookupKey_setKey_ne kvs "image_url" k _ hk
  | null => simp [resolveDrug] at h
  | bool b => simp [resolveDrug] at h
  | num n => simp [resolveDrug] at h
  | str s => simp [resolveDrug] at h
  | arr xs => simp [resolveDrug] at h

/-- Claim C9: the Resolver/Verifier stage only ever touches the `image_url`
field of each drug entry: when the extraction produced an object with a
`drugs` list, the final `data` is that record with the enriched drugs list
(and the key normalisation), the enriched list has the same length and
order — entry `i` of the output corresponds to entry `i` of the Extractor's
output — and for every key other than `image_url` the output entry agrees
with the input entry. -/
theorem claim_C9 (o : RequestOracle) (reply : String) (kvs : List (String × Json))
    (xs : List Json) (d : Json)
    (hdec : o.decodeOk = true)
    (hrep : o.geminiReply = some reply)
    (hex : extract_data_from_image reply = Except.ok (Json.obj kvs))
    (hdrugs : lookupKey "drugs" kvs = some (Json.arr xs))
    (hrun : run_pipeline o = some d) :
    ∃ xs₂, mapOpt (resolveDrug o) xs = some xs₂ ∧
      d = Json.obj (ensureKeys (setKey kvs "drugs" (Json.arr xs₂))) ∧
      xs₂.length = xs.length ∧
      ∀ i (hi : i < xs.length) (hi₂ : i < xs₂.length) (k : String), k ≠ "image_url" →
        jsonGet k (xs₂.get ⟨i, hi₂⟩) = jsonGet k (xs.get ⟨i, hi⟩) := by
  unfold run_pipeline at hrun
  rw [if_pos hdec, hrep] at hrun
  have h₂ : (match extract_data_from_image reply with
      | Except.ok data => enrichData o data
      | Except.error _ => none) = some d := hrun
  rw [hex] at h₂
  have h₃ : enrichData o (Json.obj kvs) = some d := h₂
  simp only [enrichData] at h₃
  rw [hdrugs] at h₃
  have h₄ : (mapOpt (resolveDrug o) xs).map
      (fun xs₂ => Json.obj (ensureKeys (setKey kvs "drugs" (Json.arr xs₂)))) = some d := h₃
  cases hm : mapOpt (resolveDrug o) xs with
  | none => rw [hm] at h₄; simp at h₄
  | some xs₂ =>
    rw [hm] at h₄
    simp at h₄
    obtain ⟨hlen, hidx⟩ := mapOpt_some (resolveDrug o) xs xs₂ hm
    refine ⟨xs₂, rfl, h₄.symm, hlen, ?_⟩
    intro i hi hi₂ k hk
    exact resolveDrug_frame o (xs.get ⟨i, hi⟩) (xs₂.get ⟨i, hi₂⟩) (hidx i hi hi₂) k hk

/-- Witness for C9 at the concrete one-drug request world. -/
theorem claim_C9_witness :
    run_pipeline oW9 = some dW9 ∧
    ∃ xs₂, mapOpt (resolveDrug oW9) xsW9 = some xs₂ ∧
      dW9 = Json.obj (ensureKeys (setKey kvsW9 "drugs" (Json.arr xs₂))) ∧
      xs₂.length = xsW9.length ∧
      ∀ i (hi : i < xsW9.length) (hi₂ : i < xs₂.length) (k : String), k ≠ "image_url" →
        jsonGet k (xs₂.get ⟨i, hi₂⟩) = jsonGet k (xsW9.get ⟨i, hi⟩) :=
  ⟨rfl, claim_C9 oW9
    "\x7b\"drugs\": [\x7b\"name\": \"Para\", \"dosage\": \"1-0-1\"\x7d], \"diagnosis\": \"Flu\"\x7d"
    kvsW9 xsW9 dW9 rfl rfl rfl rfl rfl⟩
